import Mathlib

/-!
Verification development for the io core of the l3tc tunnel daemon
(src/src/io.c).  The definitions below are a shallow embedding of the data
model and operations of io.c: machine integers (ssize_t) are modelled as
Int, byte buffers as lists of byte values (Nat below 256) where contents
matter and as pure length bookkeeping where they do not, and the results
of the send/recv/read syscalls are supplied by explicit oracles.  The
embedding targets the usual LP64 little-endian platform the source is
written for (x86-64 Linux).
-/

/-! ## Status codes (io.c:724-728) -/

def CONN_IO_OK : Int := 0
def CONN_IO_OK_EXHAUSTED : Int := 1
def CONN_KILL : Int := -1
def CONN_UNKNOWN_ERR : Int := -2
def CONN_IO_OK_NOT_ENOUGH_SPACE : Int := -3

/-! ## Errno values and syscall results

send/recv return a byte count (0 or more) or fail with an errno; the
failure case carries the errno observed by the caller.  Only the errno
values inspected by io.c are distinguished; every other errno is EOTHER. -/

inductive Errno where
  | EAGAIN
  | EWOULDBLOCK
  | ECONNRESET
  | ECONNREFUSED
  | ENOTCONN
  | EPIPE
  | EOTHER
deriving DecidableEq, Repr

inductive SysRes where
  | ok (n : Nat)
  | err (e : Errno)
deriving DecidableEq, Repr

/-! ## send_bl_batch (io.c:730-740)

The C handler receives `ssize_t *start` and, on a successful send, executes
`start += sent;` — this increments the local pointer variable, it never
writes through it, so the pointed-to tracker keeps its old value.  The
embedding returns (new tracker value, status); the tracker component is
therefore the unchanged input on every path. -/

def send_bl_batch (res : SysRes) (start : Int) : Int × Int :=
  match res with
  | .err e =>
    if e = .EAGAIN ∨ e = .EWOULDBLOCK then (start, CONN_IO_OK_EXHAUSTED)
    else if e = .ECONNRESET ∨ e = .ENOTCONN ∨ e = .EPIPE then (start, CONN_KILL)
    else (start, CONN_UNKNOWN_ERR)
  | .ok _sent => (start, CONN_IO_OK)

/-! ## recv_batch (io.c:765-778)

recv==0 yields CONN_KILL; a negative return dispatches on errno with
EAGAIN/EWOULDBLOCK -> OK_EXHAUSTED, ECONNREFUSED/ENOTCONN -> KILL, anything
else -> UNKNOWN_ERR.  On a positive return the C code executes
`end += rcvd;` on the local pointer (same slip as send_bl_batch), so the
tracker is returned unchanged there as well. -/

def recv_batch (res : SysRes) (end_ : Int) : Int × Int :=
  match res with
  | .ok 0 => (end_, CONN_KILL)
  | .ok (_n + 1) => (end_, CONN_IO_OK)
  | .err e =>
    if e = .EAGAIN ∨ e = .EWOULDBLOCK then (end_, CONN_IO_OK_EXHAUSTED)
    else if e = .ECONNREFUSED ∨ e = .ENOTCONN then (end_, CONN_KILL)
    else (end_, CONN_UNKNOWN_ERR)

/-! ## Ring buffer state (io.c:38-42)

`ring_buff_s` holds a buffer pointer plus ssize_t fields sz/start/end and
an int wrap flag.  The byte contents are irrelevant to all claims below,
so the embedding keeps the bookkeeping fields only (`end` is a Lean
keyword, hence the field name end_). -/

structure RingBuff where
  sz : Int
  start : Int
  end_ : Int
  wraped : Bool
deriving DecidableEq, Repr

/-- The ring invariants stated in the spec (section 3, RingBuffer). -/
def RingInv (r : RingBuff) : Prop :=
  0 ≤ r.start ∧ r.start ≤ r.sz ∧ 0 ≤ r.end_ ∧ r.end_ ≤ r.sz ∧
  (r.wraped = true → r.end_ ≤ r.start) ∧ (r.wraped = false → r.start ≤ r.end_)

instance (r : RingBuff) : Decidable (RingInv r) := by
  unfold RingInv; infer_instance

/-- Number of occupied bytes of the ring: `[start, end)` when not wrapped,
`[start, sz) ∪ [0, end)` when wrapped. -/
def occupied (r : RingBuff) : Int :=
  if r.wraped then r.sz - r.start + r.end_ else r.end_ - r.start

/-! ## The IO handler / data pusher callback shapes (io.c:745, io.c:780)

A handler receives (besides fd and the buffer pointer, which carry no
information the claims need) the presented contiguous length, the tracker
value it may advance, and the "additional length" promise; it returns the
new tracker value, its updated context and a status.  A pusher receives
the two presented occupied span lengths and returns the number of bytes it
moved plus its updated context.  The context type is shared between the
handler and the pusher exactly as the single hdlr_ctx pointer is in C. -/

abbrev IoHandler (υ : Type) := υ → Int → Int → Int → Int × υ × Int

abbrev DataPush (υ : Type) := υ → Int → Int → Int × υ

/-! ## fill_ring (io.c:782-828)

One iteration of the do-while loop is `fill_step`; `fill_loop` iterates it
on explicit fuel (the C loop has no bound; a `none` result models a run
that has not exited within the given fuel).  The loop state carries the
ring, the context, the last handler status `ret` and the `full` flag, all
mirroring the C locals. -/

/-- The pusher block of fill_ring (io.c:797-825): invoked after each
handler call when a pusher is supplied; presents the occupied spans,
and on `moved > 0` clears `full` and advances `start` (un-wrapping when
the first span was fully consumed). -/
def pushBlock {υ : Type} (p : Option (DataPush υ)) (r : RingBuff) (c : υ) (full : Bool) :
    RingBuff × υ × Bool :=
  match p with
  | none => (r, c, full)
  | some push =>
    if r.wraped then
      let len1 := r.sz - r.start
      let len2 := r.end_
      let pres := if len1 = 0 then push c len2 0 else push c len1 len2
      if 0 < pres.1 then
        if len1 < pres.1 then ({ r with start := pres.1 - len1, wraped := false }, pres.2, false)
        else ({ r with start := r.start + pres.1 }, pres.2, false)
      else (r, pres.2, full)
    else
      let len1 := r.end_ - r.start
      let pres := push c len1 0
      if 0 < pres.1 then ({ r with start := r.start + pres.1 }, pres.2, false)
      else (r, pres.2, full)

/-- One iteration of the fill_ring do-while body.  `Sum.inl` is the state
passed to the next iteration (the while condition held), `Sum.inr` is the
returned result (the condition failed).  The wrap branch (io.c:790-794)
executes `continue`, which in a C do-while jumps to the condition test
with the previous `ret` and `full`. -/
def fill_step {υ : Type} (h : IoHandler υ) (p : Option (DataPush υ))
    (r : RingBuff) (c : υ) (ret : Int) (full : Bool) :
    (RingBuff × υ × Int × Bool) ⊕ (RingBuff × υ × Int) :=
  if r.wraped then
    let full1 := if r.start = r.end_ then true else full
    let hres := h c (r.start - r.end_) r.end_ 0
    let r1 := { r with end_ := hres.1 }
    let pres := pushBlock p r1 hres.2.1 full1
    if hres.2.2 = CONN_IO_OK ∨ pres.2.2 = true then .inl (pres.1, pres.2.1, hres.2.2, pres.2.2)
    else .inr (pres.1, pres.2.1, hres.2.2)
  else if r.sz = r.end_ then
    let r1 := { r with end_ := 0, wraped := true }
    if ret = CONN_IO_OK ∨ full = true then .inl (r1, c, ret, full)
    else .inr (r1, c, ret)
  else
    let hres := h c (r.sz - r.end_) r.end_ r.start
    let r1 := { r with end_ := hres.1 }
    let pres := pushBlock p r1 hres.2.1 full
    if hres.2.2 = CONN_IO_OK ∨ pres.2.2 = true then .inl (pres.1, pres.2.1, hres.2.2, pres.2.2)
    else .inr (pres.1, pres.2.1, hres.2.2)

def fill_loop {υ : Type} (h : IoHandler υ) (p : Option (DataPush υ)) :
    Nat → RingBuff → υ → Int → Bool → Option (RingBuff × υ × Int)
  | 0, _, _, _, _ => none
  | fuel + 1, r, c, ret, full =>
    match fill_step h p r c ret full with
    | .inl s => fill_loop h p fuel s.1 s.2.1 s.2.2.1 s.2.2.2
    | .inr out => some out

/-- fill_ring enters its loop with ret = CONN_IO_OK and full = 0. -/
def fill_ring {υ : Type} (h : IoHandler υ) (p : Option (DataPush υ))
    (fuel : Nat) (r : RingBuff) (c : υ) : Option (RingBuff × υ × Int) :=
  fill_loop h p fuel r c CONN_IO_OK false

/-! ## drain_ring (io.c:747-763) -/

/-- One iteration of the drain_ring do-while body.  When wrapped and
`start` has reached `sz` the code rewinds start, clears the wrap flag and
executes `continue` (tested against the previous ret); on an empty
un-wrapped ring it breaks out returning the current ret. -/
def drain_step {υ : Type} (h : IoHandler υ) (r : RingBuff) (c : υ) (ret : Int) :
    (RingBuff × υ × Int) ⊕ (RingBuff × υ × Int) :=
  if r.wraped then
    if r.sz = r.start then
      let r1 := { r with start := 0, wraped := false }
      if ret = CONN_IO_OK then .inl (r1, c, ret) else .inr (r1, c, ret)
    else
      let hres := h c (r.sz - r.start) r.start r.end_
      let r1 := { r with start := hres.1 }
      if hres.2.2 = CONN_IO_OK then .inl (r1, hres.2.1, hres.2.2)
      else .inr (r1, hres.2.1, hres.2.2)
  else if r.end_ = r.start then .inr (r, c, ret)
  else
    let hres := h c (r.end_ - r.start) r.start 0
    let r1 := { r with start := hres.1 }
    if hres.2.2 = CONN_IO_OK then .inl (r1, hres.2.1, hres.2.2)
    else .inr (r1, hres.2.1, hres.2.2)

def drain_loop {υ : Type} (h : IoHandler υ) :
    Nat → RingBuff → υ → Int → Option (RingBuff × υ × Int)
  | 0, _, _, _ => none
  | fuel + 1, r, c, ret =>
    match drain_step h r c ret with
    | .inl s => drain_loop h fuel s.1 s.2.1 s.2.2
    | .inr out => some out

def drain_ring {υ : Type} (h : IoHandler υ) (fuel : Nat) (r : RingBuff) (c : υ) :
    Option (RingBuff × υ × Int) :=
  drain_loop h fuel r c CONN_IO_OK

/-! ## parse_l3_packet_len (io.c:905-920)

The C function reads the IPv4 total-length field out of an occupied region
split into spans b1 (len1 bytes) and b2 (len2 bytes).  Spans are modelled
as lists of byte values; a NULL span is the empty list (every call site
passes NULL together with length 0).  The unaligned `uint16_t` loads are
little-endian (x86-64) and ntohs is the 16-bit byte swap on such a host. -/

/-- Little-endian 16-bit load of bytes i and i+1 of a byte list
(out-of-range bytes read as 0; the C code never actually reads past the
lengths in the branches below). -/
def load16le (b : List Nat) (i : Nat) : Nat := b.getD i 0 + 256 * b.getD (i + 1) 0

/-- ntohs on a little-endian host: swap the two bytes of a 16-bit value. -/
def ntohs (v : Nat) : Nat := v % 256 * 256 + v / 256 % 256

def parse_l3_packet_len (b1 b2 : List Nat) : Nat :=
  if b1 = [] ∧ b2 = [] then 0
  else
    let len1 := b1.length
    let len2 := b2.length
    if 4 ≤ len1 then ntohs (load16le b1 2)
    else if len1 = 3 ∧ 1 ≤ len2 then ntohs ((b1.getD 2 0) * 256 + b2.getD 0 0)
    else if len1 ≤ 2 ∧ 4 ≤ len1 + len2 then ntohs (load16le b2 0)
    else 0

/-- The value the spec describes: the 16-bit network-byte-order quantity
formed by bytes 2 and 3 of the concatenated stream b1 ++ b2 (the IPv4
total-length field). -/
def spec_total_len (b1 b2 : List Nat) : Nat :=
  (b1 ++ b2).getD 2 0 * 256 + (b1 ++ b2).getD 3 0

/-! ## Tun packet scratch buffers (io.c:44-47, io.c:282-309)

`tun_pkt_buff_s` carries the malloc result plus capacity/len/current_pkt_len.
The embedding records the allocated size alongside the capacity field so
the mismatch introduced by init_tun_tx_backlog_ring is expressible. -/

def INITIAL_TUN_PKT_BUFF_SZ : Int := 4096
def MAX_L3_PKT_SZ : Int := 0xFFFF

structure tun_pkt_buff where
  alloc : Int
  capacity : Int
  len : Int
  current_pkt_len : Int
deriving DecidableEq, Repr

/-- The tun read scratch buffer as left by init_tun_tx_backlog_ring: the
buffer is malloc(MAX_L3_PKT_SZ) (io.c:297) but the capacity field is then
set to INITIAL_TUN_PKT_BUFF_SZ together with the write buffer (io.c:303). -/
def init_r_buff : tun_pkt_buff :=
  { alloc := MAX_L3_PKT_SZ, capacity := INITIAL_TUN_PKT_BUFF_SZ, len := 0, current_pkt_len := 0 }

/-- Length delivered by `read(fd, pkt_buff->buff, pkt_buff->capacity)` on
the tun fd (io.c:1140) when a packet of pkt_sz bytes is pending: a tun
read delivers at most the requested length, truncating the excess. -/
def tun_read_len (pkt_sz : Int) (b : tun_pkt_buff) : Int := min pkt_sz b.capacity

/-- State of the read scratch buffer after one iteration of the
read_tun_and_xmit loop (io.c:1139-1161): only `len` is updated; nothing in
the tun read path ever touches `capacity` (expand_tun_wbuff_if_necessary,
io.c:999-1014, is invoked only on the write buffer, io.c:1034). -/
def read_tun_step (pkt_sz : Int) (b : tun_pkt_buff) : tun_pkt_buff :=
  { b with len := tun_read_len pkt_sz b }

/-! ## The ring drained by tun_io (io.c:1164-1172) versus ctx->tun_tx

io_sock_s (io.c:51-74) stores the per-type payload in a union `d` whose
conn member is { uint8_t peer[16]; int af; int outbound; ring_buff_t rx, tx; }
and whose tun member is { ring_buff_t tx; tun_pkt_buff_t r_buff, w_buff; }.
On LP64 x86-64: pointers and ssize_t are 8 bytes, int is 4 bytes, so
ring_buff_t is 40 bytes (8 + 3*8 + 4 + 4 padding) and tun_pkt_buff_t is
32 bytes.  The byte offsets of the union members are therefore fixed, and
`&tun->d.conn.tx` — the expression tun_io passes to drain_ring at
io.c:1166 — denotes different storage than `&sock->d.tun.tx`, the ring
init_tun_tx_backlog_ring publishes as ctx->tun_tx (io.c:307). -/

def sizeof_ring_buff : Nat := 40
def sizeof_tun_pkt_buff : Nat := 32
def MAX_NW_ADDR_LEN : Nat := 16

/-- The ring-typed member expressions of the io_sock_s union that appear
in io.c, with their byte offsets inside the union under the LP64 ABI. -/
inductive sock_ring_expr where
  | conn_rx
  | conn_tx
  | tun_tx
deriving DecidableEq, Repr

def ring_expr_off : sock_ring_expr → Nat
  | .conn_rx => MAX_NW_ADDR_LEN + 4 + 4
  | .conn_tx => MAX_NW_ADDR_LEN + 4 + 4 + sizeof_ring_buff
  | .tun_tx => 0

/-- The ring argument tun_io hands to drain_ring on the writable path:
io.c:1166 reads `drain_ring(tun->fd, &tun->d.conn.tx, write_to_tun, ...)`. -/
def tun_io_drain_arg : sock_ring_expr := .conn_tx

/-- The ring init_tun_tx_backlog_ring publishes as the process-wide tun tx
backlog: io.c:307 reads `ctx->tun_tx = &sock->d.tun.tx`. -/
def ctx_tun_tx_expr : sock_ring_expr := .tun_tx

/-! ## read_tun_and_xmit dispatch (io.c:1146-1160)

The switch on `ip_v = first_octet & 0xF0` has no break statements: the
0x40 case performs the destination lookup and write_to_conn hand-off and
then falls through case 0x60 into the default unknown-version log.  The
embedding returns the list of actions executed for a packet with the given
first octet, in program order. -/

inductive tun_act where
  | lookup_and_write_conn
  | log_unknown
deriving DecidableEq, Repr

def read_tun_dispatch (first_octet : Nat) : List tun_act :=
  let ip_v := first_octet &&& 0xF0
  if ip_v = 0x40 then [.lookup_and_write_conn, .log_unknown]
  else if ip_v = 0x60 then [.log_unknown]
  else [.log_unknown]

/-! ## reset_peers address-family filter (io.c:567-591)

For a resolved AF_INET address the code guards the retain-and-capture path
with `if (ctx->using_af | USING_IPV4)` (io.c:570) — a bitwise or, not an
and — and inside it with the strict memcmp comparison against the self
address (io.c:572); symmetrically for AF_INET6 with USING_IPV6
(io.c:579).  The embedding returns whether the address survives both
guards and is inserted into updated_passive_peers. -/

def USING_IPV4 : Nat := 0x1
def USING_IPV6 : Nat := 0x2

def reset_peers_keep_v4 (using_af : Nat) (memcmp_gt_self : Bool) : Bool :=
  decide ((using_af ||| USING_IPV4) ≠ 0) && memcmp_gt_self

def reset_peers_keep_v6 (using_af : Nat) (memcmp_gt_self : Bool) : Bool :=
  decide ((using_af ||| USING_IPV6) ≠ 0) && memcmp_gt_self

/-! ## Counters (io.c:91-95) -/

structure io_ctr where
  b : Nat
  p : Nat
  drop_b : Nat
  drop_p : Nat
deriving DecidableEq, Repr

/-! ## write_to_conn and its handler / pusher (io.c:1073-1129)

conn_bound_pkt_s carries the tun read buffer, the destination fd and the
progress counter `already_written`; only the packet length and the
progress matter here (byte contents are copied verbatim and never
inspected).  The fill context bundles that record with the oracle of send
outcomes consumed by the write_passthru_to_conn pusher, indexed by a call
counter — exactly the state reachable through the single hdlr_ctx
pointer plus the ambient socket. -/

structure conn_bound_pkt where
  len : Int
  already_written : Int
deriving DecidableEq, Repr

structure C8Ctx where
  pkt : conn_bound_pkt
  oracle : Nat → SysRes
  k : Nat

/-- read_from_tun_buff (io.c:1081-1096): copy min(remaining, capacity)
bytes of the packet into the presented region; on the first invocation
refuse outright (OK_NOT_ENOUGH_SPACE, nothing copied) when the whole
packet exceeds the presented capacity plus the promised wrap capacity. -/
def read_from_tun_buff : IoHandler C8Ctx := fun c capacity end_ additional =>
  let available := c.pkt.len - c.pkt.already_written
  let to_write := if capacity < available then capacity else available
  if c.pkt.already_written = 0 ∧ to_write + additional < c.pkt.len then
    (end_, c, CONN_IO_OK_NOT_ENOUGH_SPACE)
  else
    let a1 := c.pkt.already_written + to_write
    (end_ + to_write, { c with pkt := { c.pkt with already_written := a1 } },
      if a1 = c.pkt.len then CONN_IO_OK_EXHAUSTED else CONN_IO_OK)

/-- write_passthru_to_conn (io.c:1098-1109): a local `written = 0`, a send
of the first span, and — when `written` equals len1 — a send of the second
span, returning `written`.  Both sends go through send_bl_batch with
`&written` as the tracker, and send_bl_batch never writes through its
tracker pointer (io.c:737), so `written` survives as 0. -/
def write_passthru_to_conn : DataPush C8Ctx := fun c len1 len2 =>
  if 0 < len1 then
    if (send_bl_batch (c.oracle c.k) 0).1 = len1 ∧ 0 < len2 then
      ((send_bl_batch (c.oracle (c.k + 1)) (send_bl_batch (c.oracle c.k) 0).1).1,
        { c with k := c.k + 2 })
    else ((send_bl_batch (c.oracle c.k) 0).1, { c with k := c.k + 1 })
  else
    if (0 : Int) = len1 ∧ 0 < len2 then
      ((send_bl_batch (c.oracle c.k) 0).1, { c with k := c.k + 1 })
    else (0, c)

/-- write_to_conn (io.c:1111-1129).  `conn = none` models the NULL dest
socket (no live socket for the destination): the world-tx drop counters
are bumped and nothing else happens.  Otherwise the connection tx ring is
filled from the packet via read_from_tun_buff / write_passthru_to_conn;
on OK_NOT_ENOUGH_SPACE the drop counters are bumped.  The result carries
the updated counters plus, for the live-socket case, the fill outcome. -/
def write_to_conn (fuel : Nat) (cw : io_ctr) (conn : Option RingBuff) (pkt_len : Int)
    (oracle : Nat → SysRes) : Option (io_ctr × Option (RingBuff × C8Ctx × Int)) :=
  match conn with
  | none =>
    some ({ cw with drop_p := cw.drop_p + 1, drop_b := cw.drop_b + pkt_len.toNat }, none)
  | some r =>
    match fill_ring read_from_tun_buff (some write_passthru_to_conn) fuel r
        ⟨⟨pkt_len, 0⟩, oracle, 0⟩ with
    | none => none
    | some (r1, c1, ret) =>
      if ret = CONN_IO_OK_NOT_ENOUGH_SPACE then
        some ({ cw with drop_p := cw.drop_p + 1, drop_b := cw.drop_b + pkt_len.toNat },
          some (r1, c1, ret))
      else some (cw, some (r1, c1, ret))

/-! ## conn_io read path (io.c:988-996)

On EPOLLIN conn_io fills the connection rx ring with recv_batch as the
handler (recv outcomes come from the kernel and are modelled as an oracle
threaded through the context) and push_to_tun as the pusher, and destroys
the socket exactly when the fill result is CONN_KILL (io.c:992).  The
pusher is kept as a parameter: its byte-moving behaviour is irrelevant to
the destroy decision, and any pusher (including the push_to_tun
instantiation) is covered by the theorems below. -/

structure RecvCtx where
  oracle : Nat → SysRes
  k : Nat

def recv_batch_h {τ : Type} : IoHandler (RecvCtx × τ) := fun c _len tracker _add =>
  let rb := recv_batch (c.1.oracle c.1.k) tracker
  (rb.1, (⟨c.1.oracle, c.1.k + 1⟩, c.2), rb.2)

/-- The EPOLLIN body of conn_io: run the fill, report the fill outcome and
whether destroy_sock was invoked (`true` exactly on CONN_KILL). -/
def conn_io_on_read {τ : Type} (p : Option (DataPush (RecvCtx × τ))) (fuel : Nat)
    (rx : RingBuff) (c : RecvCtx × τ) : Option (RingBuff × (RecvCtx × τ) × Int × Bool) :=
  match fill_ring recv_batch_h p fuel rx c with
  | none => none
  | some (r1, c1, ret) => some (r1, c1, ret, decide (ret = CONN_KILL))

/-! # Theorems -/

/-! ## Helper lemmas -/

/-- The send-batch handler never changes the tracker it is handed: the C
code increments the local pointer (`start += sent;`, io.c:737) instead of
the pointed-to value. -/
theorem send_bl_batch_fst (res : SysRes) (s : Int) : (send_bl_batch res s).1 = s := by
  cases res with
  | ok n => rfl
  | err e => cases e <;> rfl

/-- The recv-batch handler never changes the tracker either
(`end += rcvd;`, io.c:775). -/
theorem recv_batch_fst (res : SysRes) (s : Int) : (recv_batch res s).1 = s := by
  cases res with
  | ok n => cases n <;> rfl
  | err e => cases e <;> rfl

/-- C1: on the tun writable path, tun_io does not drain the tun variant tx
ring.  The ring expression it passes to drain_ring (io.c:1166) is
`&tun->d.conn.tx`, while the process-wide tun backlog that
init_tun_tx_backlog_ring publishes as ctx->tun_tx is `&sock->d.tun.tx`
(io.c:307); the two denote different union members whose storage (40
bytes at offset 64 versus 40 bytes at offset 0 of the union) does not
even overlap, so the single shared tun backlog is never the ring drained
by tun_io. -/
theorem c1_tun_io_drains_wrong_ring :
    tun_io_drain_arg = sock_ring_expr.conn_tx ∧
    ctx_tun_tx_expr = sock_ring_expr.tun_tx ∧
    tun_io_drain_arg ≠ ctx_tun_tx_expr ∧
    ring_expr_off tun_io_drain_arg = 64 ∧
    ring_expr_off ctx_tun_tx_expr + sizeof_ring_buff ≤ ring_expr_off tun_io_drain_arg := by
  exact ⟨rfl, rfl, by decide, by decide, by decide⟩

/-- C2: refuted at a concrete input.  A send that transmits 5 bytes with
tracker value 0 leaves the tracker at 0 while reporting CONN_IO_OK, and a
recv of 7 bytes likewise leaves its tracker at 0: the batch handlers never
advance `start` / `end` (io.c:737, io.c:775 increment the local pointer
copies), so drain_ring / fill_ring see no progress, contrary to the claim
that `start` is advanced by the bytes sent and `end` by the bytes
received. -/
theorem c2_batch_handlers_never_advance_tracker :
    (send_bl_batch (SysRes.ok 5) 0).1 = 0 ∧ (send_bl_batch (SysRes.ok 5) 0).2 = CONN_IO_OK ∧
    (recv_batch (SysRes.ok 7) 0).1 = 0 ∧ (recv_batch (SysRes.ok 7) 0).2 = CONN_IO_OK ∧
    (0 : Int) ≠ 5 ∧
    (∀ res s, (send_bl_batch res s).1 = s) ∧
    (∀ res s, (recv_batch res s).1 = s) := by
  exact ⟨rfl, rfl, rfl, rfl, by decide, send_bl_batch_fst, recv_batch_fst⟩

/-- C3: refuted at a concrete input.  For a packet whose first octet is
0x45 (IPv4 header, version nibble 4) the tun-read dispatch performs the
destination lookup and write_to_conn hand-off and then, because the switch
at io.c:1151-1160 has no break statements, falls through case 0x60 into
the default branch and also executes the unknown-IP-version log that the
claim says is reserved for versions other than 4 and 6. -/
theorem c3_v4_dispatch_falls_through_to_unknown :
    read_tun_dispatch 0x45 = [tun_act.lookup_and_write_conn, tun_act.log_unknown] ∧
    tun_act.log_unknown ∈ read_tun_dispatch 0x45 := by
  exact ⟨rfl, by decide⟩

/-- C4: refuted at a concrete input.  With using_af = USING_IPV6 (so the
IPv4 self-family flag is not set) an AF_INET resolved address that
compares strictly greater than the self address is still retained, because
the guard at io.c:570 computes `using_af | USING_IPV4` (bitwise or, always
non-zero) instead of `using_af & USING_IPV4`; symmetrically for AF_INET6
under io.c:579.  The family filter therefore never filters anything. -/
theorem c4_family_filter_never_filters :
    USING_IPV6 &&& USING_IPV4 = 0 ∧
    reset_peers_keep_v4 USING_IPV6 true = true ∧
    USING_IPV4 &&& USING_IPV6 = 0 ∧
    reset_peers_keep_v6 USING_IPV4 true = true ∧
    (∀ using_af : Nat, reset_peers_keep_v4 using_af true = true) := by
  refine ⟨by decide, by decide, by decide, by decide, ?_⟩
  intro using_af
  have h4 : (using_af ||| USING_IPV4) ≠ 0 := by
    intro h0
    have : (using_af ||| USING_IPV4) % 2 = 0 := by rw [h0]
    rw [Nat.or_mod_two_eq_one.mpr (by right; decide)] at this
    exact absurd this (by decide)
  simp [reset_peers_keep_v4, h4]

/-- C6: refuted at concrete inputs.  For the split (b1,b2) =
([0x45,0x00,0x01],[0x02]) — len1 = 3 — the concatenated bytes 2 and 3 are
0x01,0x02, so the total-length field is 258, but the code assembles the
network-order value in host order and then byte-swaps it again
(io.c:911-913 followed by ntohs), returning 513.  For the split
([0x45],[0x00,0x01,0x02]) — len1 = 1 — the code reads b2 bytes 0 and 1
(io.c:915) instead of the stream bytes 2 and 3 (b2 bytes 1 and 2),
returning 1 instead of 258.  The splits with len1 = 2 and len1 ≥ 4 are
handled correctly, as the last two conjuncts record. -/
theorem c6_parse_len_wrong_at_splits_1_and_3 :
    parse_l3_packet_len [0x45, 0x00, 0x01] [0x02] = 513 ∧
    spec_total_len [0x45, 0x00, 0x01] [0x02] = 258 ∧
    parse_l3_packet_len [0x45] [0x00, 0x01, 0x02] = 1 ∧
    spec_total_len [0x45] [0x00, 0x01, 0x02] = 258 ∧
    parse_l3_packet_len [0x45, 0x00, 0x01, 0x02] [] = 258 ∧
    parse_l3_packet_len [0x45, 0x00] [0x01, 0x02] = 258 := by
  exact ⟨by decide, by decide, by decide, by decide, by decide, by decide⟩

/-- Folding any sequence of tun reads over the read scratch buffer leaves
its capacity field untouched: read_tun_and_xmit only writes `len`
(io.c:1140) and the only capacity-growing routine is applied to the write
buffer alone (io.c:1034). -/
theorem read_tun_steps_capacity (pkts : List Int) (b : tun_pkt_buff) :
    (pkts.foldl (fun b2 pkt_sz => read_tun_step pkt_sz b2) b).capacity = b.capacity := by
  induction pkts generalizing b with
  | nil => rfl
  | cons x xs ih => simpa [read_tun_step] using ih (read_tun_step x b)

/-- C7: refuted by init_tun_tx_backlog_ring.  The read scratch buffer is
allocated with MAX_L3_PKT_SZ = 65535 bytes (io.c:297) but its capacity
field — the length every tun read is issued with (io.c:1140) — is then set
to INITIAL_TUN_PKT_BUFF_SZ = 4096 together with the write buffer
(io.c:303), and no code on the read path ever grows it, so a maximal
65535-byte L3 packet is truncated to 4096 bytes on read. -/
theorem c7_read_buffer_capacity_stuck_at_4096 :
    init_r_buff.alloc = 65535 ∧
    init_r_buff.capacity = 4096 ∧
    tun_read_len 65535 init_r_buff = 4096 ∧
    init_r_buff.capacity < MAX_L3_PKT_SZ ∧
    (∀ pkts : List Int,
      (pkts.foldl (fun b2 pkt_sz => read_tun_step pkt_sz b2) init_r_buff).capacity = 4096) := by
  refine ⟨rfl, rfl, by decide, by decide, ?_⟩
  intro pkts
  rw [read_tun_steps_capacity]
  rfl


/-- C5 (amended): recv_batch returns CONN_KILL exactly when recv returned
0 or failed with errno ECONNREFUSED or ENOTCONN — the code at io.c:772
tests ECONNREFUSED, not ECONNRESET, and does not treat EPIPE as fatal;
EAGAIN/EWOULDBLOCK yield OK_EXHAUSTED; and for every fill_ring execution
of the conn_io read path that completes, destroy_sock is invoked exactly
when the fill result is CONN_KILL (io.c:992), so EAGAIN never destroys
the socket. -/
theorem c5_recv_kill_exactly_and_destroy :
    (∀ res tr, (recv_batch res tr).2 = CONN_KILL ↔
      (res = SysRes.ok 0 ∨ res = SysRes.err Errno.ECONNREFUSED ∨
        res = SysRes.err Errno.ENOTCONN)) ∧
    (∀ tr, (recv_batch (SysRes.err Errno.EAGAIN) tr).2 = CONN_IO_OK_EXHAUSTED ∧
      (recv_batch (SysRes.err Errno.EWOULDBLOCK) tr).2 = CONN_IO_OK_EXHAUSTED) ∧
    (∀ (τ : Type) (p : Option (DataPush (RecvCtx × τ))) (fuel : Nat) (rx r1 : RingBuff)
      (c : RecvCtx × τ) (c1 : RecvCtx × τ) (ret : Int) (dk : Bool),
      conn_io_on_read p fuel rx c = some (r1, c1, ret, dk) → (dk = true ↔ ret = CONN_KILL)) := by
  refine ⟨?_, ?_, ?_⟩
  · intro res tr
    cases res with
    | ok n => cases n <;> (simp [recv_batch]; try decide)
    | err e => cases e <;> (simp [recv_batch]; try decide)
  · intro tr; exact ⟨rfl, rfl⟩
  · intro τ p fuel rx r1 c c1 ret dk heq
    unfold conn_io_on_read at heq
    cases hfill : fill_ring recv_batch_h p fuel rx c with
    | none => rw [hfill] at heq; exact absurd heq (by simp)
    | some out =>
      obtain ⟨r2, c2, ret2⟩ := out
      rw [hfill] at heq
      simp only [Option.some.injEq, Prod.mk.injEq] at heq
      obtain ⟨-, -, hret, hdk⟩ := heq
      subst hret hdk
      simp

/-- C5 counterexample: recv failing with ECONNRESET — an errno the claim
lists as yielding KILL — actually yields CONN_UNKNOWN_ERR, and EPIPE
likewise; conversely ECONNREFUSED, absent from the claim, yields
CONN_KILL.  So the claimed errno set {ECONNRESET, ENOTCONN, EPIPE} is not
the one the code implements. -/
theorem c5_counterexample_econnreset_not_kill :
    (recv_batch (SysRes.err Errno.ECONNRESET) 0).2 = CONN_UNKNOWN_ERR ∧
    (recv_batch (SysRes.err Errno.EPIPE) 0).2 = CONN_UNKNOWN_ERR ∧
    (recv_batch (SysRes.err Errno.ECONNREFUSED) 0).2 = CONN_KILL ∧
    CONN_UNKNOWN_ERR ≠ CONN_KILL := by
  exact ⟨rfl, rfl, rfl, by decide⟩

/-- Witness for C5: the amended theorem applied at recv==0 on tracker 0,
and at a completed concrete conn_io read (ring of size 4, recv oracle that
reports an immediately closed peer) whose fill result is CONN_KILL and
whose destroy flag is true. -/
theorem c5_witness :
    (recv_batch (SysRes.ok 0) 0).2 = CONN_KILL ∧ (true = true ↔ CONN_KILL = CONN_KILL) :=
  ⟨(c5_recv_kill_exactly_and_destroy.1 (SysRes.ok 0) 0).mpr (Or.inl rfl),
    c5_recv_kill_exactly_and_destroy.2.2 Unit none 2 ⟨4, 0, 0, false⟩ ⟨4, 0, 0, false⟩
      (⟨fun _ => SysRes.ok 0, 0⟩, ()) (⟨fun _ => SysRes.ok 0, 1⟩, ()) CONN_KILL true rfl⟩

/-! ## Handler and pusher contracts (spec section 4.1)

A conforming handler advances its tracker by at least 0 and at most the
presented contiguous length; a conforming pusher reports at most the total
presented occupied length as moved. -/

def HandlerLe {υ : Type} (h : IoHandler υ) : Prop :=
  ∀ c len tr add, 0 ≤ len → tr ≤ (h c len tr add).1 ∧ (h c len tr add).1 ≤ tr + len

def PushLe {υ : Type} (p : DataPush υ) : Prop :=
  ∀ c l1 l2, 0 ≤ l1 → 0 ≤ l2 → (p c l1 l2).1 ≤ l1 + l2

def PushLeO {υ : Type} : Option (DataPush υ) → Prop
  | none => True
  | some p => PushLe p

def step_ring {υ : Type} : (RingBuff × υ × Int × Bool) ⊕ (RingBuff × υ × Int) → RingBuff
  | .inl s => s.1
  | .inr o => o.1

theorem pushBlock_inv {υ : Type} (p : Option (DataPush υ)) (r : RingBuff) (c : υ) (full : Bool)
    (hp : PushLeO p) (hr : RingInv r) : RingInv (pushBlock p r c full).1 := by
  obtain ⟨sz, st, en, w⟩ := r
  obtain ⟨h1, h2, h3, h4, h5, h6⟩ := hr
  simp only at h1 h2 h3 h4 h5 h6
  cases p with
  | none => exact ⟨h1, h2, h3, h4, h5, h6⟩
  | some push =>
    simp only [PushLeO] at hp
    cases w with
    | true =>
      have hw : en ≤ st := h5 rfl
      have hb0 : (push c en 0).1 ≤ en + 0 := hp c en 0 (by omega) (by omega)
      have hb1 : (push c (sz - st) en).1 ≤ (sz - st) + en := hp c (sz - st) en (by omega) (by omega)
      simp [pushBlock]
      split_ifs <;> simp [RingInv] <;> omega
    | false =>
      have hw : st ≤ en := h6 rfl
      have hb0 : (push c (en - st) 0).1 ≤ (en - st) + 0 := hp c (en - st) 0 (by omega) (by omega)
      simp [pushBlock]
      split_ifs <;> simp [RingInv] <;> omega

theorem fill_step_inv {υ : Type} (h : IoHandler υ) (p : Option (DataPush υ))
    (r : RingBuff) (c : υ) (ret : Int) (full : Bool)
    (hh : HandlerLe h) (hp : PushLeO p) (hr : RingInv r) :
    RingInv (step_ring (fill_step h p r c ret full)) := by
  obtain ⟨sz, st, en, w⟩ := r
  obtain ⟨h1, h2, h3, h4, h5, h6⟩ := hr
  simp only at h1 h2 h3 h4 h5 h6
  cases w with
  | true =>
    have hw : en ≤ st := h5 rfl
    have hb := hh c (st - en) en 0 (by omega)
    have hinv1 : RingInv ⟨sz, st, (h c (st - en) en 0).1, true⟩ := by
      simp [RingInv]; omega
    have hpb := pushBlock_inv p ⟨sz, st, (h c (st - en) en 0).1, true⟩
      (h c (st - en) en 0).2.1 (if st = en then true else full) hp hinv1
    simp [fill_step]
    split_ifs <;> simpa [step_ring] using hpb
  | false =>
    have hw : st ≤ en := h6 rfl
    have hb := hh c (sz - en) en st (by omega)
    have hinv1 : RingInv ⟨sz, st, (h c (sz - en) en st).1, false⟩ := by
      simp [RingInv]; omega
    have hpb := pushBlock_inv p ⟨sz, st, (h c (sz - en) en st).1, false⟩
      (h c (sz - en) en st).2.1 full hp hinv1
    have hinv2 : RingInv ⟨sz, st, 0, true⟩ := by simp [RingInv]; omega
    simp [fill_step]
    split_ifs <;> first
      | simpa [step_ring] using hpb
      | simpa [step_ring] using hinv2

def dstep_ring {υ : Type} : (RingBuff × υ × Int) ⊕ (RingBuff × υ × Int) → RingBuff
  | .inl s => s.1
  | .inr o => o.1

theorem drain_step_inv {υ : Type} (h : IoHandler υ) (r : RingBuff) (c : υ) (ret : Int)
    (hh : HandlerLe h) (hr : RingInv r) : RingInv (dstep_ring (drain_step h r c ret)) := by
  obtain ⟨sz, st, en, w⟩ := r
  obtain ⟨h1, h2, h3, h4, h5, h6⟩ := hr
  simp only at h1 h2 h3 h4 h5 h6
  cases w with
  | true =>
    have hw : en ≤ st := h5 rfl
    have hb := hh c (sz - st) st en (by omega)
    have hinvA : RingInv ⟨sz, 0, en, false⟩ := by simp [RingInv]; omega
    have hinvB : RingInv ⟨sz, (h c (sz - st) st en).1, en, true⟩ := by
      simp [RingInv]; omega
    simp [drain_step]
    split_ifs <;> first
      | simpa [dstep_ring] using hinvA
      | simpa [dstep_ring] using hinvB
  | false =>
    have hw : st ≤ en := h6 rfl
    have hb := hh c (en - st) st 0 (by omega)
    have hinvC : RingInv ⟨sz, st, en, false⟩ := ⟨h1, h2, h3, h4, h5, h6⟩
    have hinvD : RingInv ⟨sz, (h c (en - st) st 0).1, en, false⟩ := by
      simp [RingInv]; omega
    simp [drain_step]
    split_ifs <;> first
      | simpa [dstep_ring] using hinvC
      | simpa [dstep_ring] using hinvD

theorem fill_loop_inv {υ : Type} (h : IoHandler υ) (p : Option (DataPush υ))
    (hh : HandlerLe h) (hp : PushLeO p) :
    ∀ (fuel : Nat) (r : RingBuff) (c : υ) (ret : Int) (full : Bool)
      (r1 : RingBuff) (c1 : υ) (ret1 : Int),
      fill_loop h p fuel r c ret full = some (r1, c1, ret1) → RingInv r → RingInv r1 := by
  intro fuel
  induction fuel with
  | zero => intro r c ret full r1 c1 ret1 heq; exact Option.noConfusion heq
  | succ n ih =>
    intro r c ret full r1 c1 ret1 heq hr
    rw [fill_loop] at heq
    have hstep := fill_step_inv h p r c ret full hh hp hr
    cases hs : fill_step h p r c ret full with
    | inl s =>
      rw [hs] at heq hstep
      exact ih s.1 s.2.1 s.2.2.1 s.2.2.2 r1 c1 ret1 heq hstep
    | inr out =>
      rw [hs] at heq hstep
      simp only [Option.some.injEq] at heq
      rw [heq] at hstep
      exact hstep

theorem drain_loop_inv {υ : Type} (h : IoHandler υ) (hh : HandlerLe h) :
    ∀ (fuel : Nat) (r : RingBuff) (c : υ) (ret : Int)
      (r1 : RingBuff) (c1 : υ) (ret1 : Int),
      drain_loop h fuel r c ret = some (r1, c1, ret1) → RingInv r → RingInv r1 := by
  intro fuel
  induction fuel with
  | zero => intro r c ret r1 c1 ret1 heq; exact Option.noConfusion heq
  | succ n ih =>
    intro r c ret r1 c1 ret1 heq hr
    rw [drain_loop] at heq
    have hstep := drain_step_inv h r c ret hh hr
    cases hs : drain_step h r c ret with
    | inl s =>
      rw [hs] at heq hstep
      exact ih s.1 s.2.1 s.2.2 r1 c1 ret1 heq hstep
    | inr out =>
      rw [hs] at heq hstep
      simp only [Option.some.injEq] at heq
      rw [heq] at hstep
      exact hstep

inductive RingOp (υ : Type) where
  | drain (h : IoHandler υ) (fuel : Nat)
  | fill (h : IoHandler υ) (p : Option (DataPush υ)) (fuel : Nat)

def ringOpContract {υ : Type} : RingOp υ → Prop
  | .drain h _ => HandlerLe h
  | .fill h p _ => HandlerLe h ∧ PushLeO p

def runOp {υ : Type} : RingOp υ → RingBuff → υ → Option (RingBuff × υ)
  | .drain h fuel, r, c => (drain_ring h fuel r c).map (fun o => (o.1, o.2.1))
  | .fill h p fuel, r, c => (fill_ring h p fuel r c).map (fun o => (o.1, o.2.1))

def runOps {υ : Type} : List (RingOp υ) → RingBuff → υ → Option (RingBuff × υ)
  | [], r, c => some (r, c)
  | op :: ops, r, c =>
    match runOp op r c with
    | none => none
    | some (r1, c1) => runOps ops r1 c1

theorem runOp_inv {υ : Type} (op : RingOp υ) (r : RingBuff) (c : υ)
    (hc : ringOpContract op) (hr : RingInv r) :
    ∀ r1 c1, runOp op r c = some (r1, c1) → RingInv r1 := by
  intro r1 c1 heq
  cases op with
  | drain h fuel =>
    cases hd : drain_ring h fuel r c with
    | none => rw [runOp, hd] at heq; exact Option.noConfusion heq
    | some o =>
      obtain ⟨r2, c2, ret2⟩ := o
      rw [runOp, hd] at heq
      simp only [Option.map_some', Option.some.injEq, Prod.mk.injEq] at heq
      rw [← heq.1]
      exact drain_loop_inv h hc fuel r c CONN_IO_OK r2 c2 ret2 hd hr
  | fill h p fuel =>
    cases hd : fill_ring h p fuel r c with
    | none => rw [runOp, hd] at heq; exact Option.noConfusion heq
    | some o =>
      obtain ⟨r2, c2, ret2⟩ := o
      rw [runOp, hd] at heq
      simp only [Option.map_some', Option.some.injEq, Prod.mk.injEq] at heq
      rw [← heq.1]
      exact fill_loop_inv h p hc.1 hc.2 fuel r c CONN_IO_OK false r2 c2 ret2 hd hr

theorem c9_ring_invariants_preserved {υ : Type} (ops : List (RingOp υ)) (r : RingBuff) (c : υ)
    (hc : ∀ op ∈ ops, ringOpContract op) (hr : RingInv r) :
    ∀ r1 c1, runOps ops r c = some (r1, c1) →
      RingInv r1 ∧ 0 ≤ occupied r1 ∧ occupied r1 ≤ r1.sz := by
  induction ops generalizing r c with
  | nil =>
    intro r1 c1 heq
    simp only [runOps, Option.some.injEq, Prod.mk.injEq] at heq
    obtain ⟨hr1, -⟩ := heq
    subst hr1
    obtain ⟨h1, h2, h3, h4, h5, h6⟩ := hr
    refine ⟨⟨h1, h2, h3, h4, h5, h6⟩, ?_, ?_⟩ <;>
      · unfold occupied
        split_ifs with hw
        · have := h5 hw; omega
        · have := h6 (by simpa using hw); omega
  | cons op ops ih =>
    intro r1 c1 heq
    rw [runOps] at heq
    cases hop : runOp op r c with
    | none => rw [hop] at heq; exact Option.noConfusion heq
    | some s =>
      obtain ⟨r2, c2⟩ := s
      rw [hop] at heq
      have hr2 := runOp_inv op r c (hc op (by simp)) hr r2 c2 hop
      exact ih r2 c2 (fun o ho => hc o (by simp [ho])) hr2 r1 c1 heq

/-- A handler that makes no progress and always reports OK_EXHAUSTED — the
behaviour of playback_tun_write_buf when the pending packet does not fit
(io.c:861). -/
def exh_only_handler : IoHandler Unit := fun c _len tr _add => (tr, c, CONN_IO_OK_EXHAUSTED)

/-- A full ring: wrapped with start = end (spec section 3). -/
def full_ring : RingBuff := ⟨4, 2, 2, true⟩

/-- C10 counterexample: the fill_ring loop does NOT always exit once the
handler stops returning CONN_IO_OK.  On a full ring (wrapped, start = end)
with no data pusher — exactly the configuration
push_pkt_to_tun_backlog_ring uses (io.c:875 passes NULL) — a handler that
always returns OK_EXHAUSTED leaves `full` set forever, the while condition
`(CONN_IO_OK == ret) || full` (io.c:826) stays true, and no amount of fuel
makes the loop exit. -/
theorem c10_fill_ring_spins_on_full_ring :
    ¬ ∃ (fuel : Nat) (out : RingBuff × Unit × Int),
        fill_ring exh_only_handler none fuel full_ring () = some out := by
  rintro ⟨fuel, out, heq⟩
  have key : ∀ (n : Nat) (ret : Int) (b : Bool),
      fill_loop exh_only_handler none n full_ring () ret b = none := by
    intro n
    induction n with
    | zero => intro ret b; rfl
    | succ m ih =>
      intro ret b
      have hstep : fill_step exh_only_handler none full_ring () ret b =
          .inl (full_ring, (), CONN_IO_OK_EXHAUSTED, true) := rfl
      rw [fill_loop, hstep]
      exact ih CONN_IO_OK_EXHAUSTED true
  rw [fill_ring, key fuel CONN_IO_OK false] at heq
  exact Option.noConfusion heq

/-- C10 (amended): once the handler returns a non-OK status the fill_ring
loop does exit — provided the ring is not full at that moment; with no
pusher and a handler that never returns CONN_IO_OK, any ring whose
occupied count is below its capacity makes fill_ring return within two
iterations.  (When the ring is full and the pusher is absent or moves
nothing, the loop spins forever, as the counterexample shows.) -/
theorem c10_fill_ring_exits_when_not_full {υ : Type} (h : IoHandler υ) (c : υ) (r : RingBuff)
    (hnok : ∀ cc len tr add, (h cc len tr add).2.2 ≠ CONN_IO_OK)
    (hr : RingInv r) (hlt : occupied r < r.sz) :
    ∃ out, fill_ring h none 2 r c = some out := by
  obtain ⟨sz, st, en, w⟩ := r
  obtain ⟨h1, h2, h3, h4, h5, h6⟩ := hr
  simp only at h1 h2 h3 h4 h5 h6
  cases w with
  | true =>
    have hw := h5 rfl
    have hne : ¬(st = en) := by simp [occupied] at hlt; omega
    have hstep : fill_step h none ⟨sz, st, en, true⟩ c CONN_IO_OK false =
        .inr (⟨sz, st, (h c (st - en) en 0).1, true⟩,
          (h c (st - en) en 0).2.1, (h c (st - en) en 0).2.2) := by
      simp [fill_step, pushBlock, hne]
      exact hnok _ _ _ _
    rw [fill_ring, fill_loop, hstep]
    exact ⟨_, rfl⟩
  | false =>
    have hw := h6 rfl
    by_cases hsz : sz = en
    · have hst : ¬(st = (0 : Int)) := by simp [occupied] at hlt; omega
      have hstep : fill_step h none ⟨sz, st, en, false⟩ c CONN_IO_OK false =
          .inl (⟨sz, st, 0, true⟩, c, CONN_IO_OK, false) := by
        simp [fill_step, hsz]
      have hstep2 : fill_step h none ⟨sz, st, 0, true⟩ c CONN_IO_OK false =
          .inr (⟨sz, st, (h c st 0 0).1, true⟩,
            (h c st 0 0).2.1, (h c st 0 0).2.2) := by
        simp [fill_step, pushBlock, hst]
        exact hnok _ _ _ _
      rw [fill_ring, fill_loop, hstep]
      show ∃ out, fill_loop h none 1 ⟨sz, st, 0, true⟩ c CONN_IO_OK false = some out
      rw [fill_loop, hstep2]
      exact ⟨_, rfl⟩
    · have hstep : fill_step h none ⟨sz, st, en, false⟩ c CONN_IO_OK false =
          .inr (⟨sz, st, (h c (sz - en) en st).1, false⟩,
            (h c (sz - en) en st).2.1, (h c (sz - en) en st).2.2) := by
        simp [fill_step, pushBlock, hsz]
        exact hnok _ _ _ _
      rw [fill_ring, fill_loop, hstep]
      exact ⟨_, rfl⟩

/-- Witness for the amended C10: a non-full ring (size 4, one occupied
byte region empty) with the always-OK_EXHAUSTED handler and no pusher
completes within fuel 2. -/
theorem c10_witness :
    ∃ out, fill_ring exh_only_handler none 2 ⟨4, 1, 1, false⟩ () = some out :=
  c10_fill_ring_exits_when_not_full exh_only_handler () ⟨4, 1, 1, false⟩
    (fun _cc _len _tr _add => by
      show CONN_IO_OK_EXHAUSTED ≠ CONN_IO_OK
      decide)
    (by decide) (by decide)

/-- A simple conforming handler for the C9 witness: consumes the whole
presented region (advances the tracker by the presented length) and
reports OK_EXHAUSTED. -/
def exh_copy_handler : IoHandler Unit := fun c len tr _add => (tr + len, c, CONN_IO_OK_EXHAUSTED)

theorem exh_copy_handler_le : HandlerLe exh_copy_handler := by
  intro c len tr add hlen
  constructor <;> (simp [exh_copy_handler]; try omega)

/-- Witness for C9: a fill of 8 bytes followed by a full drain on an
8-byte ring, with the conforming whole-region handler, ends in the state
(start = end = 8, un-wrapped), which satisfies the invariants. -/
theorem c9_witness :
    RingInv ⟨8, 8, 8, false⟩ ∧ 0 ≤ occupied ⟨8, 8, 8, false⟩ ∧
      occupied ⟨8, 8, 8, false⟩ ≤ (⟨8, 8, 8, false⟩ : RingBuff).sz :=
  c9_ring_invariants_preserved
    [RingOp.fill exh_copy_handler none 3, RingOp.drain exh_copy_handler 3]
    ⟨8, 0, 0, false⟩ ()
    (by
      intro op hop
      simp only [List.mem_cons, List.not_mem_nil, or_false] at hop
      rcases hop with rfl | rfl
      · exact ⟨exh_copy_handler_le, trivial⟩
      · exact exh_copy_handler_le)
    (by decide) ⟨8, 8, 8, false⟩ () rfl

/-- The write_passthru_to_conn pusher always reports 0 bytes moved and
leaves the packet record untouched: its local `written` starts at 0 and
send_bl_batch never writes through the tracker pointer (the io.c:737
slip), so the `written == len1` gate only ever admits the len1 = 0 case
and the returned count is the unchanged 0. -/
theorem wp_moved_zero (c : C8Ctx) (l1 l2 : Int) :
    (write_passthru_to_conn c l1 l2).1 = 0 ∧ (write_passthru_to_conn c l1 l2).2.pkt = c.pkt := by
  unfold write_passthru_to_conn
  split_ifs <;> simp [send_bl_batch_fst]

/-- The (ring, context, status) data carried by a fill_step outcome. -/
def step_dat {υ : Type} : (RingBuff × υ × Int × Bool) ⊕ (RingBuff × υ × Int) → RingBuff × υ × Int
  | .inl s => (s.1, s.2.1, s.2.2.1)
  | .inr o => o

/-- With write_passthru_to_conn as the pusher the pusher block is inert:
the ring and the full flag come back unchanged and the packet record is
preserved (only the send-oracle cursor may advance). -/
theorem pushBlock_wp (r : RingBuff) (c : C8Ctx) (full : Bool) :
    ∃ c1, pushBlock (some write_passthru_to_conn) r c full = (r, c1, full) ∧ c1.pkt = c.pkt := by
  obtain ⟨sz, st, en, w⟩ := r
  cases w with
  | true =>
    by_cases hl0 : sz - st = 0
    · have h0 := (wp_moved_zero c en 0).1
      simp [pushBlock, hl0, h0]
      exact (wp_moved_zero c en 0).2
    · have h0 := (wp_moved_zero c (sz - st) en).1
      simp [pushBlock, hl0, h0]
      exact (wp_moved_zero c (sz - st) en).2
  | false =>
    have h0 := (wp_moved_zero c (en - st) 0).1
    simp [pushBlock, h0]
    exact (wp_moved_zero c (en - st) 0).2

/-- Closed form of the data carried by one fill iteration, for rewriting. -/
theorem step_dat_fill_step {υ : Type} (h : IoHandler υ) (p : Option (DataPush υ))
    (r : RingBuff) (c : υ) (ret : Int) (full : Bool) :
    step_dat (fill_step h p r c ret full) =
      if r.wraped then
        ((pushBlock p { r with end_ := (h c (r.start - r.end_) r.end_ 0).1 }
            (h c (r.start - r.end_) r.end_ 0).2.1 (if r.start = r.end_ then true else full)).1,
          (pushBlock p { r with end_ := (h c (r.start - r.end_) r.end_ 0).1 }
            (h c (r.start - r.end_) r.end_ 0).2.1 (if r.start = r.end_ then true else full)).2.1,
          (h c (r.start - r.end_) r.end_ 0).2.2)
      else if r.sz = r.end_ then ({ r with end_ := 0, wraped := true }, c, ret)
      else
        ((pushBlock p { r with end_ := (h c (r.sz - r.end_) r.end_ r.start).1 }
            (h c (r.sz - r.end_) r.end_ r.start).2.1 full).1,
          (pushBlock p { r with end_ := (h c (r.sz - r.end_) r.end_ r.start).1 }
            (h c (r.sz - r.end_) r.end_ r.start).2.1 full).2.1,
          (h c (r.sz - r.end_) r.end_ r.start).2.2) := by
  unfold fill_step
  dsimp only
  split_ifs <;> rfl

/-- The relation claim C9 threads through a fill of the connection tx ring
by a tun packet: invariants hold, the packet length is stable, progress is
monotone and mirrored exactly by the occupied count, and the final status
pins the progress (NOT_ENOUGH_SPACE means nothing was ever copied,
EXHAUSTED means the packet is fully copied). -/
def c8rel (r : RingBuff) (c : C8Ctx) (r1 : RingBuff) (c1 : C8Ctx) (ret1 : Int) : Prop :=
  RingInv r1 ∧
  c1.pkt.len = c.pkt.len ∧
  c.pkt.already_written ≤ c1.pkt.already_written ∧
  c1.pkt.already_written ≤ c1.pkt.len ∧
  occupied r1 + c.pkt.already_written = occupied r + c1.pkt.already_written ∧
  (ret1 = CONN_IO_OK_NOT_ENOUGH_SPACE → c1.pkt.already_written = 0) ∧
  (ret1 = CONN_IO_OK_EXHAUSTED → c1.pkt.already_written = c1.pkt.len)

theorem c8rel_trans {r c r1 c1 ret1 r2 c2 ret2} (hA : c8rel r c r1 c1 ret1)
    (hB : c8rel r1 c1 r2 c2 ret2) : c8rel r c r2 c2 ret2 := by
  obtain ⟨a1, a2, a3, a4, a5, a6, a7⟩ := hA
  obtain ⟨b1, b2, b3, b4, b5, b6, b7⟩ := hB
  exact ⟨b1, by omega, by omega, b4, by omega, b6, b7⟩

/-- Case analysis of one read_from_tun_buff call under its preconditions:
either the first-invocation guard fires — OK_NOT_ENOUGH_SPACE with the
tracker untouched and nothing copied — or min(capacity, remaining) bytes
are copied, the tracker and the progress counter advance together, and
the status is EXHAUSTED exactly when the packet is complete. -/
theorem rdftb_char (c : C8Ctx) (cap en add : Int) (hcap : 0 ≤ cap)
    (_ha0 : 0 ≤ c.pkt.already_written) (ha1 : c.pkt.already_written ≤ c.pkt.len) :
    (read_from_tun_buff c cap en add = (en, c, CONN_IO_OK_NOT_ENOUGH_SPACE) ∧
      c.pkt.already_written = 0) ∨
    (∃ tw : Int, 0 ≤ tw ∧ tw ≤ cap ∧
      read_from_tun_buff c cap en add =
        (en + tw, { c with pkt := { c.pkt with already_written := c.pkt.already_written + tw } },
          if c.pkt.already_written + tw = c.pkt.len then CONN_IO_OK_EXHAUSTED else CONN_IO_OK) ∧
      c.pkt.already_written + tw ≤ c.pkt.len) := by
  unfold read_from_tun_buff
  by_cases hg : c.pkt.already_written = 0 ∧
      (if cap < c.pkt.len - c.pkt.already_written then cap else c.pkt.len - c.pkt.already_written)
        + add < c.pkt.len
  · left
    rw [if_pos hg]
    exact ⟨rfl, hg.1⟩
  · right
    refine ⟨if cap < c.pkt.len - c.pkt.already_written then cap else c.pkt.len - c.pkt.already_written,
      ?_, ?_, ?_, ?_⟩
    · split_ifs <;> omega
    · split_ifs <;> omega
    · rw [if_neg hg]
    · split_ifs <;> omega

theorem ringInv_mk (sz st en : Int) (w : Bool) (hA : 0 ≤ st) (hB : st ≤ sz) (hC : 0 ≤ en)
    (hD : en ≤ sz) (hE : w = true → en ≤ st) (hF : w = false → st ≤ en) :
    RingInv ⟨sz, st, en, w⟩ := ⟨hA, hB, hC, hD, hE, hF⟩

/-- One iteration of the write_to_conn fill preserves the C8 relation. -/
theorem c8_step_rel (r : RingBuff) (c : C8Ctx) (ret : Int) (full : Bool)
    (hr : RingInv r) (ha0 : 0 ≤ c.pkt.already_written) (ha1 : c.pkt.already_written ≤ c.pkt.len)
    (hnes : ret = CONN_IO_OK_NOT_ENOUGH_SPACE → c.pkt.already_written = 0)
    (hexh : ret = CONN_IO_OK_EXHAUSTED → c.pkt.already_written = c.pkt.len) :
    c8rel r c
      (step_dat (fill_step read_from_tun_buff (some write_passthru_to_conn) r c ret full)).1
      (step_dat (fill_step read_from_tun_buff (some write_passthru_to_conn) r c ret full)).2.1
      (step_dat (fill_step read_from_tun_buff (some write_passthru_to_conn) r c ret full)).2.2 := by
  rw [step_dat_fill_step]
  obtain ⟨sz, st, en, w⟩ := r
  obtain ⟨h1, h2, h3, h4, h5, h6⟩ := hr
  simp only at h1 h2 h3 h4 h5 h6
  cases w with
  | true =>
    have hw : en ≤ st := h5 rfl
    rw [if_pos (show (RingBuff.mk sz st en true).wraped = true from rfl)]
    dsimp only
    rcases rdftb_char c (st - en) en 0 (by omega) ha0 ha1 with
      ⟨heq, haw0⟩ | ⟨tw, htw0, htwcap, heq, htwlen⟩
    · rw [heq]
      dsimp only
      obtain ⟨c3, hpb, hpkt⟩ :=
        pushBlock_wp (RingBuff.mk sz st en true) c (if st = en then true else full)
      rw [hpb]
      dsimp only
      refine ⟨⟨h1, h2, h3, h4, h5, h6⟩, by rw [hpkt], by rw [hpkt], by rw [hpkt]; omega,
        by rw [hpkt], fun _ => by rw [hpkt]; exact haw0,
        fun hcontra => absurd hcontra (by decide)⟩
    · rw [heq]
      dsimp only
      obtain ⟨c3, hpb, hpkt⟩ :=
        pushBlock_wp (RingBuff.mk sz st (en + tw) true)
          { c with pkt := { c.pkt with already_written := c.pkt.already_written + tw } }
          (if st = en then true else full)
      rw [hpb]
      dsimp only
      by_cases hfit : c.pkt.already_written + tw = c.pkt.len
      · rw [if_pos hfit]
        refine ⟨ringInv_mk sz st (en + tw) true (by omega) (by omega) (by omega) (by omega)
            (fun _ => by omega) (fun hcc => Bool.noConfusion hcc),
          by rw [hpkt], by rw [hpkt]; dsimp only; omega, by rw [hpkt]; dsimp only; omega,
          by rw [hpkt]; simp [occupied]; omega,
          fun hcontra => absurd hcontra (by decide),
          fun _ => by rw [hpkt]; dsimp only; omega⟩
      · rw [if_neg hfit]
        refine ⟨ringInv_mk sz st (en + tw) true (by omega) (by omega) (by omega) (by omega)
            (fun _ => by omega) (fun hcc => Bool.noConfusion hcc),
          by rw [hpkt], by rw [hpkt]; dsimp only; omega, by rw [hpkt]; dsimp only; omega,
          by rw [hpkt]; simp [occupied]; omega,
          fun hcontra => absurd hcontra (by decide),
          fun hcontra => absurd hcontra (by decide)⟩
  | false =>
    have hw : st ≤ en := h6 rfl
    rw [if_neg (show ¬(RingBuff.mk sz st en false).wraped = true from
      fun hcc => Bool.noConfusion hcc)]
    by_cases hsz : sz = en
    · rw [if_pos (show (RingBuff.mk sz st en false).sz = (RingBuff.mk sz st en false).end_
        from hsz)]
      dsimp only
      refine ⟨ringInv_mk sz st 0 true (by omega) (by omega) (by omega) (by omega)
          (fun _ => by omega) (fun hcc => Bool.noConfusion hcc),
        rfl, by omega, ha1, by simp [occupied]; omega, hnes, hexh⟩
    · rw [if_neg (show ¬(RingBuff.mk sz st en false).sz = (RingBuff.mk sz st en false).end_
        from hsz)]
      dsimp only
      rcases rdftb_char c (sz - en) en st (by omega) ha0 ha1 with
        ⟨heq, haw0⟩ | ⟨tw, htw0, htwcap, heq, htwlen⟩
      · rw [heq]
        dsimp only
        obtain ⟨c3, hpb, hpkt⟩ := pushBlock_wp (RingBuff.mk sz st en false) c full
        rw [hpb]
        dsimp only
        refine ⟨⟨h1, h2, h3, h4, h5, h6⟩, by rw [hpkt], by rw [hpkt], by rw [hpkt]; omega,
          by rw [hpkt], fun _ => by rw [hpkt]; exact haw0,
          fun hcontra => absurd hcontra (by decide)⟩
      · rw [heq]
        dsimp only
        obtain ⟨c3, hpb, hpkt⟩ :=
          pushBlock_wp (RingBuff.mk sz st (en + tw) false)
            { c with pkt := { c.pkt with already_written := c.pkt.already_written + tw } } full
        rw [hpb]
        dsimp only
        by_cases hfit : c.pkt.already_written + tw = c.pkt.len
        · rw [if_pos hfit]
          refine ⟨ringInv_mk sz st (en + tw) false (by omega) (by omega) (by omega) (by omega)
              (fun hcc => Bool.noConfusion hcc) (fun _ => by omega),
            by rw [hpkt], by rw [hpkt]; dsimp only; omega, by rw [hpkt]; dsimp only; omega,
            by rw [hpkt]; simp [occupied]; omega,
            fun hcontra => absurd hcontra (by decide),
            fun _ => by rw [hpkt]; dsimp only; omega⟩
        · rw [if_neg hfit]
          refine ⟨ringInv_mk sz st (en + tw) false (by omega) (by omega) (by omega) (by omega)
              (fun hcc => Bool.noConfusion hcc) (fun _ => by omega),
            by rw [hpkt], by rw [hpkt]; dsimp only; omega, by rw [hpkt]; dsimp only; omega,
            by rw [hpkt]; simp [occupied]; omega,
            fun hcontra => absurd hcontra (by decide),
            fun hcontra => absurd hcontra (by decide)⟩

/-- The whole write_to_conn fill loop preserves the C8 relation. -/
theorem c8_loop_rel :
    ∀ (fuel : Nat) (r : RingBuff) (c : C8Ctx) (ret : Int) (full : Bool)
      (r1 : RingBuff) (c1 : C8Ctx) (ret1 : Int),
      fill_loop read_from_tun_buff (some write_passthru_to_conn) fuel r c ret full
        = some (r1, c1, ret1) →
      RingInv r → 0 ≤ c.pkt.already_written → c.pkt.already_written ≤ c.pkt.len →
      (ret = CONN_IO_OK_NOT_ENOUGH_SPACE → c.pkt.already_written = 0) →
      (ret = CONN_IO_OK_EXHAUSTED → c.pkt.already_written = c.pkt.len) →
      c8rel r c r1 c1 ret1 := by
  intro fuel
  induction fuel with
  | zero => intro r c ret full r1 c1 ret1 heq; exact Option.noConfusion heq
  | succ n ih =>
    intro r c ret full r1 c1 ret1 heq hr ha0 ha1 hnes hexh
    rw [fill_loop] at heq
    have hstep := c8_step_rel r c ret full hr ha0 ha1 hnes hexh
    cases hs : fill_step read_from_tun_buff (some write_passthru_to_conn) r c ret full with
    | inl s =>
      rw [hs] at heq hstep
      dsimp only [step_dat] at hstep
      obtain ⟨i1, i2, i3, i4, i5, i6, i7⟩ := hstep
      have hrec := ih s.1 s.2.1 s.2.2.1 s.2.2.2 r1 c1 ret1 heq i1 (by omega) i4 i6 i7
      exact c8rel_trans ⟨i1, i2, i3, i4, i5, i6, i7⟩ hrec
    | inr out =>
      rw [hs] at heq hstep
      simp only [Option.some.injEq] at heq
      rw [heq] at hstep
      dsimp only [step_dat] at hstep
      exact hstep

/-- C8: the world-tx drop counters (drop_p by 1, drop_b by the packet
length) are bumped exactly when the packet cannot be delivered — no live
socket for the destination, or the fill of the connection tx ring returns
OK_NOT_ENOUGH_SPACE — and in the latter case nothing of the packet was
enqueued (the first handler invocation refused before copying: the
progress counter is 0 and the occupied count of the ring is unchanged);
when the fill returns OK_EXHAUSTED the packet is fully enqueued and the
counters are untouched. -/
theorem c8_drop_counters_exact (fuel : Nat) (cw : io_ctr) (pkt_len : Int)
    (oracle : Nat → SysRes) (hlen : 0 < pkt_len) :
    (write_to_conn fuel cw none pkt_len oracle =
      some ({ cw with drop_p := cw.drop_p + 1, drop_b := cw.drop_b + pkt_len.toNat }, none)) ∧
    (∀ (r r1 : RingBuff) (c1 : C8Ctx) (ret1 : Int) (cw1 : io_ctr), RingInv r →
      write_to_conn fuel cw (some r) pkt_len oracle = some (cw1, some (r1, c1, ret1)) →
        ((ret1 = CONN_IO_OK_NOT_ENOUGH_SPACE →
            cw1 = { cw with drop_p := cw.drop_p + 1, drop_b := cw.drop_b + pkt_len.toNat } ∧
            c1.pkt.already_written = 0 ∧ occupied r1 = occupied r) ∧
          (ret1 ≠ CONN_IO_OK_NOT_ENOUGH_SPACE → cw1 = cw) ∧
          (ret1 = CONN_IO_OK_EXHAUSTED → c1.pkt.already_written = pkt_len))) := by
  constructor
  · rfl
  · intro r r1 c1 ret1 cw1 hr heq
    have hw2c : write_to_conn fuel cw (some r) pkt_len oracle =
        (match fill_ring read_from_tun_buff (some write_passthru_to_conn) fuel r
            ⟨⟨pkt_len, 0⟩, oracle, 0⟩ with
        | none => none
        | some (r2, c2, ret2) =>
          if ret2 = CONN_IO_OK_NOT_ENOUGH_SPACE then
            some ({ cw with drop_p := cw.drop_p + 1, drop_b := cw.drop_b + pkt_len.toNat },
              some (r2, c2, ret2))
          else some (cw, some (r2, c2, ret2))) := rfl
    rw [hw2c] at heq
    cases hf : fill_ring read_from_tun_buff (some write_passthru_to_conn) fuel r
        ⟨⟨pkt_len, 0⟩, oracle, 0⟩ with
    | none => rw [hf] at heq; exact Option.noConfusion heq
    | some o =>
      obtain ⟨r2, c2, ret2⟩ := o
      rw [hf] at heq
      dsimp only at heq
      replace hf : fill_loop read_from_tun_buff (some write_passthru_to_conn) fuel r
          ⟨⟨pkt_len, 0⟩, oracle, 0⟩ CONN_IO_OK false = some (r2, c2, ret2) := hf
      have hrel := c8_loop_rel fuel r ⟨⟨pkt_len, 0⟩, oracle, 0⟩ CONN_IO_OK false r2 c2 ret2 hf
        hr (by dsimp only; omega) (by dsimp only; omega)
        (fun hcc => absurd hcc (by decide)) (fun hcc => absurd hcc (by decide))
      obtain ⟨j1, j2, j3, j4, j5, j6, j7⟩ := hrel
      dsimp only at j2 j3 j4 j5 j6 j7
      by_cases hnes2 : ret2 = CONN_IO_OK_NOT_ENOUGH_SPACE
      · rw [if_pos hnes2] at heq
        simp only [Option.some.injEq, Prod.mk.injEq] at heq
        obtain ⟨hcw, hr12, hc12, hret12⟩ := heq
        subst hcw hr12 hc12 hret12
        have haw := j6 hnes2
        refine ⟨fun _ => ⟨rfl, haw, by simp [occupied] at j5 ⊢; omega⟩,
          fun hcc => absurd hnes2 hcc, fun hcc => ?_⟩
        rw [hnes2] at hcc
        exact absurd hcc (by decide)
      · rw [if_neg hnes2] at heq
        simp only [Option.some.injEq, Prod.mk.injEq] at heq
        obtain ⟨hcw, hr12, hc12, hret12⟩ := heq
        subst hcw hr12 hc12 hret12
        refine ⟨fun hcc => absurd hcc hnes2, fun _ => rfl, fun hcc => ?_⟩
        have := j7 hcc
        omega

/-- Witness for C8: a missing destination bumps the counters, and a
concrete completed run (empty 4-byte ring, 2-byte packet, sends blocked
by EAGAIN) ends OK_EXHAUSTED with the packet fully enqueued. -/
theorem c8_witness :
    (write_to_conn 6 ⟨0, 0, 0, 0⟩ none 2 (fun _ => SysRes.err Errno.EAGAIN) =
      some ({ (⟨0, 0, 0, 0⟩ : io_ctr) with
        drop_p := (⟨0, 0, 0, 0⟩ : io_ctr).drop_p + 1,
        drop_b := (⟨0, 0, 0, 0⟩ : io_ctr).drop_b + (2 : Int).toNat }, none)) ∧
    (⟨⟨2, 2⟩, fun _ => SysRes.err Errno.EAGAIN, 1⟩ : C8Ctx).pkt.already_written = 2 :=
  ⟨(c8_drop_counters_exact 6 ⟨0, 0, 0, 0⟩ 2 (fun _ => SysRes.err Errno.EAGAIN) (by decide)).1,
    ((c8_drop_counters_exact 6 ⟨0, 0, 0, 0⟩ 2 (fun _ => SysRes.err Errno.EAGAIN) (by decide)).2
      ⟨4, 0, 0, false⟩ ⟨4, 0, 2, false⟩ ⟨⟨2, 2⟩, fun _ => SysRes.err Errno.EAGAIN, 1⟩
      CONN_IO_OK_EXHAUSTED ⟨0, 0, 0, 0⟩ (by decide) rfl).2.2 rfl⟩
